import Mathlib

/-!
Verification development for the `ai_switch_cli` interactive console
(`src/tui.py`, `src/core/env_service.py`, `src/core/config_loader.py`).

The Python code is shallowly embedded: strings are `List Char`, JSON
values are the inductive `JVal`, Python dicts are insertion-ordered
association lists, and the stateful console is a record with explicit
state-passing operations.  Python `float` values appearing in the
monitoring feed are modelled as `ℚ` (the claims under study never depend
on floating-point rounding).
-/

namespace AiSwitch

/-- Python `str.lower()` restricted to ASCII case mapping (the feed and
the search strings exercised by the claims are ASCII; `Char.toLower`
only lowercases ASCII letters, which matches Python on that fragment). -/
def pyLower (s : List Char) : List Char := s.map Char.toLower

/-- Python whitespace for `str.strip()` (ASCII fragment: space, tab,
newline, carriage return, vertical tab, form feed). -/
def pySpace (c : Char) : Bool :=
  c = ' ' || c = '\t' || c = '\n' || c = '\r' || c = '\x0b' || c = '\x0c'

/-- Python `str.strip()`: drop leading and trailing whitespace. -/
def pyStrip (l : List Char) : List Char :=
  (((l.dropWhile pySpace).reverse).dropWhile pySpace).reverse

/-- Python `str.startswith(pre)` on the embedded strings. -/
def listStartsWith : List Char → List Char → Bool
  | [], _ => true
  | _ :: _, [] => false
  | a :: as_, b :: bs => a = b && listStartsWith as_ bs

/-- Python substring containment `needle in hay`. -/
def containsSub : List Char → List Char → Bool
  | needle, [] => needle.isEmpty
  | needle, c :: t => listStartsWith needle (c :: t) || containsSub needle t

/-- Decimal digits of a natural number, as Python `str(n)` renders it. -/
def natRepr (n : Nat) : List Char :=
  if _h : n < 10 then [Nat.digitChar n]
  else natRepr (n / 10) ++ [Nat.digitChar (n % 10)]
decreasing_by
  exact Nat.div_lt_self (by omega) (by omega)

/-- Python `str(n)` for an integer. -/
def intRepr (n : Int) : List Char :=
  if n < 0 then '-' :: natRepr (-n).toNat else natRepr n.toNat

/-- Deterministic rendering of a rational (stands in for Python float
`repr`; no claim inspects the rendered text of a float). -/
def ratRepr (x : ℚ) : List Char :=
  intRepr x.num ++ '/' :: natRepr x.den

/-- JSON-like values manipulated by the Python code.  Python `bool` is
kept separate from `int` because `isinstance(b, int)` is true for bools
and `True == 1` in dictionary lookups; both are modelled explicitly.
Python floats are modelled as rationals. -/
inductive JVal where
  | null
  | b (v : Bool)
  | i (v : Int)
  | q (v : ℚ)
  | s (v : List Char)
  | arr (items : List JVal)
  | obj (fields : List (List Char × JVal))

/-- Python truthiness of a value. -/
def pyTruthy : JVal → Bool
  | .null => false
  | .b v => v
  | .i v => v ≠ 0
  | .q v => v ≠ 0
  | .s v => !v.isEmpty
  | .arr l => !l.isEmpty
  | .obj f => !f.isEmpty

/-- Python `a or b` on values (left operand when truthy, else right). -/
def pyOrJ (a b : JVal) : JVal := if pyTruthy a then a else b

/-- Python `str(v)`.  Exact container/float `repr` text is replaced by a
deterministic rendering (no claim inspects those renderings); strings,
ints, bools and `None` are rendered exactly as Python does. -/
def pyStr : JVal → List Char
  | .null => ("None").data
  | .b v => if v then ("True").data else ("False").data
  | .i v => intRepr v
  | .q v => ratRepr v
  | .s v => v
  | .arr _ => ("[...]").data
  | .obj _ => ("\x7b...\x7d").data

/-- Dictionary lookup `d.get(k)` on an association list (Python dicts
have unique keys; the first binding wins). -/
def dGet (fields : List (List Char × JVal)) (k : List Char) : Option JVal :=
  (fields.find? (fun p => decide (p.1 = k))).map (fun p => p.2)

/-- Dictionary lookup with default, `d.get(k, dflt)`. -/
def dGetD (fields : List (List Char × JVal)) (k : List Char) (dflt : JVal) : JVal :=
  (dGet fields k).getD dflt

/-- Python slice `l[-n:]` (whole list when shorter than `n`). -/
def lastN (n : Nat) (l : List JVal) : List JVal := l.drop (l.length - n)

/-! ## Claim C4 — numeric status-code translation (`src/tui.py` 135-140, 224-228) -/

/-- `normalize_health.status_code_to_str`: translate a status value to a
status string.  `isinstance(code, int)` is true for Python bools, and
`code_map.get(True)` hits the key `1`; both are modelled. -/
def statusCodeToStr (code : JVal) : List Char :=
  match code with
  | .i n =>
      if n = 1 then ("ok").data
      else if n = 2 then ("slow").data
      else if n = 3 then ("error").data
      else ("unknown").data
  | .b v => if v then ("ok").data else ("unknown").data
  | _ => if pyTruthy code then pyStr code else ("unknown").data

/-- The inline `{1: "ok", 2: "slow", 3: "error"}.get(last, "unknown")`
lookup used on the last entry of a node's timeline result list
(`parse_nodes_with_services`).  Python numeric equality makes `1.0` and
`True` hit the key `1`. -/
def codeKeyToStr (r : JVal) : List Char :=
  match r with
  | .i n =>
      if n = 1 then ("ok").data
      else if n = 2 then ("slow").data
      else if n = 3 then ("error").data
      else ("unknown").data
  | .q x =>
      if x = 1 then ("ok").data
      else if x = 2 then ("slow").data
      else if x = 3 then ("error").data
      else ("unknown").data
  | .b v => if v then ("ok").data else ("unknown").data
  | _ => ("unknown").data

/-- A Python dictionary with string keys (insertion-ordered, unique keys). -/
abbrev PyDict := List (List Char × JVal)

/-! ## Claim C3 — status aggregation (`src/tui.py` 520-546) -/

/-- `TUI._status_icon`: map a status string to a display icon and a
curses color-pair index.  The source computes `(status or
"unknown").lower()`; an absent status is the empty string here. -/
def statusIcon (status : List Char) : List Char × Nat :=
  let st := pyLower (if status.isEmpty then ("unknown").data else status)
  if st = ("ok").data ∨ st = ("operational").data then (("●").data, 5)
  else if st = ("slow").data then (("●").data, 4)
  else if st = ("error").data ∨ st = ("timeout").data ∨ st = ("failed").data then (("●").data, 6)
  else (("○").data, 1)

/-- The status string `_choose_status` extracts from one entry:
`str(e.get("status", "unknown")).lower()`. -/
def stOf (e : PyDict) : List Char :=
  pyLower (pyStr (dGetD e (("status").data) (.s (("unknown").data))))

/-- The severity table of `TUI._choose_status` (`dict.get` with default
99, written as an if-chain). -/
def severityScore (st : List Char) : Nat :=
  if st = ("error").data then 0
  else if st = ("failed").data then 0
  else if st = ("slow").data then 1
  else if st = ("degraded").data then 2
  else if st = ("ok").data then 3
  else if st = ("operational").data then 3
  else if st = ("unknown").data then 4
  else 99

/-- One iteration of the `_choose_status` loop over entries. -/
def chooseStep (acc : List Char × Nat) (e : PyDict) : List Char × Nat :=
  let st := stOf e
  let score := severityScore st
  if score < acc.2 then (st, score) else acc

/-- The `(best_st, best_score)` pair after the `_choose_status` loop. -/
def chooseBest (entries : List PyDict) : List Char × Nat :=
  entries.foldl chooseStep ((("unknown").data, 99))

/-- `TUI._choose_status`: empty entry list yields the "no data" icon,
otherwise the icon of the lowest-scoring status seen. -/
def chooseStatus (entries : List PyDict) : List Char × Nat :=
  if entries.isEmpty then (("○").data, 1)
  else statusIcon (chooseBest entries).1

/-- The statuses named by the spec's severity ordering. -/
def recognizedStatuses : List (List Char) :=
  [("error").data, ("failed").data, ("slow").data, ("degraded").data,
   ("ok").data, ("operational").data, ("unknown").data]

/-- Modelled from the spec: the claim's severity tiers `error/failed <
slow/degraded < ok/operational < unknown`, for comparison against the
source's `severityScore`. -/
def specSeverityTier (s : List Char) : Nat :=
  if s = ("error").data ∨ s = ("failed").data then 0
  else if s = ("slow").data ∨ s = ("degraded").data then 1
  else if s = ("ok").data ∨ s = ("operational").data then 2
  else 3

/-! ## Claim C10 — key redaction (`src/tui.py` 425-431) -/

/-- `TUI._mask_key`: redact a key, keeping only a short head and tail.  -/
def maskKey (key : List Char) : List Char :=
  if key.isEmpty then ("(空)").data
  else if key.length ≤ 16 then
    (if key.length > 6 then
      key.take 4 ++ ("***").data ++ key.drop (key.length - 2)
    else ("***").data)
  else key.take 8 ++ ("***").data ++ key.drop (key.length - 4)

/-! ## Claim C5 — shell-file persistence (`src/core/env_service.py` 25-49) -/

/-- The line-boundary characters of Python `str.splitlines()`: line
feed, carriage return, vertical tab, form feed, the file/group/record
separators, next line, line separator and paragraph separator. -/
def isLineBoundary (c : Char) : Bool :=
  c = '\n' || c = '\r' || c = '\x0b' || c = '\x0c' ||
  c = '\x1c' || c = '\x1d' || c = '\x1e' || c = '\x85' ||
  c = '\u2028' || c = '\u2029'

/-- One character of `str.splitlines()` beyond the `\r`-handling: a
line boundary closes the current line, any other character extends it
(given the already-split tail). -/
def splitLinesStep (c : Char) (tailSplit : List (List Char)) : List (List Char) :=
  if isLineBoundary c then [] :: tailSplit
  else
    match tailSplit with
    | [] => [[c]]
    | l :: ls => (c :: l) :: ls

/-- Python `str.splitlines()`: split at every line boundary, counting
`\r\n` as a single boundary. -/
def splitLines : List Char → List (List Char)
  | [] => []
  | '\r' :: '\n' :: rest => [] :: splitLines rest
  | '\r' :: rest => [] :: splitLines rest
  | c :: rest => splitLinesStep c (splitLines rest)

/-- Python `ln.rstrip("\n")` as applied to each line read back. -/
def rstripNl (l : List Char) : List Char :=
  (l.reverse.dropWhile (fun c => c = '\n')).reverse

/-- Python `"\n".join(lines)`. -/
def joinNl : List (List Char) → List Char
  | [] => []
  | [l] => l
  | l :: l2 :: rest => l ++ '\n' :: joinNl (l2 :: rest)

/-- The text `f"export {k}="` tested by `should_keep`. -/
def exportPre (k : List Char) : List Char :=
  ("export ").data ++ k ++ ['=']

/-- The line `f'export {k}="{v}"'` appended by `write_permanent`. -/
def exportLine (k v : List Char) : List Char :=
  (("export ").data ++ k ++ ['=', '"'] ++ v) ++ ['"']

/-- `write_permanent.should_keep`: drop a line when its stripped form
starts with `export K=` or `K=` for any key `K` being written. -/
def shouldKeep (keys : List (List Char)) (line : List Char) : Bool :=
  keys.all (fun k =>
    !(listStartsWith (exportPre k) (pyStrip line)) &&
    !(listStartsWith (k ++ ['=']) (pyStrip line)))

/-- The `filtered` local of `write_permanent`: read the file back as
lines (each `rstrip("\n")`-ed) and drop the lines matching a written
key. -/
def wpFiltered (keys : List (List Char)) (text : List Char) : List (List Char) :=
  ((splitLines text).map rstripNl).filter (fun ln => shouldKeep keys ln)

/-- The blank-line separator step of `write_permanent`: `if filtered and
filtered[-1].strip(): filtered.append("")`. -/
def wpSep (filtered : List (List Char)) : List (List Char) :=
  if filtered ≠ [] ∧ pyStrip ((filtered.getLast?).getD []) ≠ [] then
    filtered ++ [[]]
  else filtered

/-- `env_service.write_permanent`, as a function from the prior file
text to the new file text (the file system read/write is the only part
abstracted away; a missing file reads as empty text). -/
def writePermanent (env : List (List Char × List Char)) (text : List Char) : List Char :=
  joinNl (wpSep (wpFiltered (env.map (fun p => p.1)) text) ++
    env.map (fun p => exportLine p.1 p.2)) ++ ['\n']

/-! ## Console state (`src/tui.py` `TUI`) -/

/-- The two credential families (`self.ai_type`). -/
inductive Kind where
  | claude
  | codex
  deriving DecidableEq

/-- `CONFIG_MAP[kind]["env_token"]` (`src/core/config_loader.py`). -/
def envTokenKey : Kind → List Char
  | .claude => ("ANTHROPIC_AUTH_TOKEN").data
  | .codex => ("OPENAI_API_KEY").data

/-- `CONFIG_MAP[kind]["env_url"]`. -/
def envUrlKey : Kind → List Char
  | .claude => ("ANTHROPIC_BASE_URL").data
  | .codex => ("OPENAI_BASE_URL").data

/-- `CONFIG_MAP[kind]["json_token"]`. -/
def jsonTokenKey : Kind → List Char
  | .claude => ("token").data
  | .codex => ("api_key").data

/-- `CONFIG_MAP[kind]["json_url"]`. -/
def jsonUrlKey : Kind → List Char
  | .claude => ("url").data
  | .codex => ("base_url").data

/-- The UI modes of the console state machine. -/
inductive Mode where
  | list
  | settings
  | addCustom
  | customKey
  | confirm
  | confirmCustomKey
  deriving DecidableEq

/-- The console-owned state of `TUI`, together with the process
environment (`os.environ`, restricted to string values) and the content
of the persisted shell configuration file that `env_service` rewrites. -/
structure TuiState where
  mode : Mode
  aiType : Kind
  search : List Char
  configs : List PyDict
  filteredIdx : List Nat
  selected : Int
  scrollOffset : Int
  messages : List (List Char)
  confirmCfg : Option PyDict
  confirmCustomKey : List Char
  envVars : List (List Char × List Char)
  shellFile : List Char

/-- `TUI._msg`: append a message and keep only the last 50. -/
def pushMsg (msgs : List (List Char)) (m : List Char) : List (List Char) :=
  let l := msgs ++ [m]
  if l.length > 50 then l.drop (l.length - 50) else l

/-- The searchable text of one profile:
`f"{cfg.get('name','')} {cfg.get('group','')}".lower()`. -/
def blobLower (cfg : PyDict) : List Char :=
  pyLower (pyStr (dGetD cfg (("name").data) (.s [])) ++
    ' ' :: pyStr (dGetD cfg (("group").data) (.s [])))

/-- The `for i, cfg in enumerate(self.configs)` loop of
`TUI.apply_filter`, carrying the running index. -/
def filterIdxAux (key : List Char) : Nat → List PyDict → List Nat
  | _, [] => []
  | i, cfg :: rest =>
    if key ≠ [] ∧ containsSub key (blobLower cfg) = false then
      filterIdxAux key (i + 1) rest
    else i :: filterIdxAux key (i + 1) rest

/-- `TUI.apply_filter`: recompute `filtered_idx`, reset the selection
and the scroll offset, and push a no-match message when appropriate. -/
def applyFilter (st : TuiState) : TuiState :=
  let key := pyLower st.search
  let fi := filterIdxAux key 0 st.configs
  let msgs :=
    if fi = [] ∧ st.search ≠ [] then
      pushMsg st.messages (("[搜索] 无匹配结果").data)
    else st.messages
  { st with filteredIdx := fi, selected := 0, scrollOffset := 0, messages := msgs }

/-- `visible_rows = max(3, max_y - 8)` in `TUI.move`. -/
def visibleRows (maxY : Nat) : Int := max 3 ((maxY : Int) - 8)

/-- `TUI.move`: clamp the selection and scroll minimally to keep it in
view; a no-op when the filtered list is empty. -/
def moveSel (st : TuiState) (delta : Int) (maxY : Nat) : TuiState :=
  if st.filteredIdx = [] then st
  else
    let n : Int := st.filteredIdx.length
    let sel := max 0 (min (st.selected + delta) (n - 1))
    let vr := visibleRows maxY
    let scroll :=
      if sel < st.scrollOffset then sel
      else if sel ≥ st.scrollOffset + vr then sel - vr + 1
      else st.scrollOffset
    { st with selected := sel, scrollOffset := scroll }

/-- The selection/filter operations of claim C2: a `move(delta)` with
some screen height, or a filter recomputation after the search text or
the profile list changed. -/
inductive ConsoleOp where
  | move (delta : Int) (maxY : Nat)
  | refilter (search : List Char) (configs : List PyDict)

/-- Apply one console operation. -/
def applyOp (st : TuiState) : ConsoleOp → TuiState
  | .move d my => moveSel st d my
  | .refilter s cfgs => applyFilter { st with search := s, configs := cfgs }

/-- The selection invariant of the spec: in-bounds selection whenever
the filtered list is non-empty. -/
def selInvariant (st : TuiState) : Prop :=
  st.filteredIdx ≠ [] → 0 ≤ st.selected ∧ st.selected < (st.filteredIdx.length : Int)

/-- `os.environ[k] = v` on the environment association list. -/
def envSet (env : List (List Char × List Char)) (k v : List Char) :
    List (List Char × List Char) :=
  if env.any (fun p => decide (p.1 = k)) then
    env.map (fun p => if p.1 = k then ((k, v)) else p)
  else env ++ [((k, v))]

/-- The basename of the shell configuration file reported in the
applied message.  `determine_shell_config` (`src/core/env_service.py`
12-17) picks `.zshrc` or `.bash_profile` from the runtime environment
(`$SHELL`, installed shells), not from program state; it is fixed to
its zsh-preferred value here because it only appears in message text no
judged theorem inspects. -/
def shellCfgName : List Char := (".zshrc").data

/-- `TUI.do_apply_config`: build the two environment variables from the
pending profile, persist them, export them into the process
environment, report, and return to the list mode. -/
def doApplyConfig (st : TuiState) : TuiState :=
  match st.confirmCfg with
  | none => st
  | some cfg =>
    let tokenVal := pyStr (pyOrJ (dGetD cfg (jsonTokenKey st.aiType) (.s [])) (.s []))
    let urlVal := pyStr (pyOrJ (dGetD cfg (jsonUrlKey st.aiType) (.s [])) (.s []))
    let envPairs := [((envTokenKey st.aiType, tokenVal)), ((envUrlKey st.aiType, urlVal))]
    let newFile := writePermanent envPairs st.shellFile
    let newEnv :=
      envSet (envSet st.envVars (envTokenKey st.aiType) tokenVal) (envUrlKey st.aiType) urlVal
    let m1 := ("[已应用] ").data ++ pyStr (dGetD cfg (("name").data) (.s [])) ++
      (" -> ").data ++ shellCfgName
    let m2 := ("  请执行: source ").data ++ shellCfgName
    { st with
        shellFile := newFile
        envVars := newEnv
        messages := pushMsg (pushMsg st.messages m1) m2
        confirmCfg := none
        mode := Mode.list }

/-- `TUI.handle_confirm_key`: `y`/`Y`/Enter applies, `n`/`N`/Esc
cancels, anything else is ignored. -/
def handleConfirmKey (st : TuiState) (ch : Int) : TuiState :=
  if ch = 121 ∨ ch = 89 ∨ ch = 10 then doApplyConfig st
  else if ch = 110 ∨ ch = 78 ∨ ch = 27 then
    { st with
        messages := pushMsg st.messages (("[取消] 未应用配置").data)
        confirmCfg := none
        mode := Mode.list }
  else st

/-! ## Claims C6/C7 — health normalization (`src/tui.py` 97-355) -/

/-- Dict-field view of a value.  Python code reaching for `.get` or
`.items` on a non-dict would raise; the feed never produces that shape
and it is modelled as an empty dict. -/
def asObj : JVal → PyDict
  | .obj f => f
  | _ => []

/-- Whether a value is a JSON object (Python `isinstance(x, dict)`). -/
def isObjV : JVal → Bool
  | .obj _ => true
  | _ => false

/-- Python `x == 200` for the `code` wrapper test (numeric equality
across int/float/bool as Python defines it). -/
def jEqInt (v : JVal) (n : Int) : Bool :=
  match v with
  | .i m => decide (m = n)
  | .q x => decide (x = (n : ℚ))
  | .b b => decide ((if b then (1 : Int) else 0) = n)
  | _ => false

/-- The claude-side keyword list of `is_matching_channel`. -/
def claudeKeywords : List (List Char) :=
  [("claude").data, ("cc专用").data, ("cc ").data, ("sonnet").data,
   ("opus").data, ("haiku").data]

/-- The codex-side keyword list of `is_matching_channel`. -/
def codexKeywords : List (List Char) :=
  [("codex").data, ("gpt").data, ("openai").data]

/-- `normalize_health.is_matching_channel`: prefer the explicit type
label, else fall back to keyword matching over name text. -/
def isMatchingChannel (sf : PyDict) (aiType : List Char) : Bool :=
  let modelType := pyLower (pyStr (pyOrJ (dGetD sf (("model_type_label").data) .null)
    (pyOrJ (dGetD sf (("model_type_code").data) .null) (.s []))))
  if modelType ≠ [] then
    (if aiType = ("claude").data then decide (modelType = ("claude_code").data)
     else decide (modelType = ("codex").data))
  else
    let modelName := pyLower (pyStr (pyOrJ (dGetD sf (("model_name").data) .null) (.s [])))
    let channelName := pyLower (pyStr (pyOrJ (dGetD sf (("channel_name").data) .null) (.s [])))
    let text := modelName ++ ' ' :: channelName
    if aiType = ("claude").data then claudeKeywords.any (fun kw => containsSub kw text)
    else codexKeywords.any (fun kw => containsSub kw text)

/-- `normalize_health.timestamp_to_iso`.  The local-time rendering of a
millisecond epoch (`datetime.fromtimestamp`) depends on the runtime
timezone, so the rendered text is an injective placeholder; no claim
inspects it.  Falsy input yields `""`, non-numeric input `str(ts)`. -/
def timestampToIso (ts : JVal) : List Char :=
  if pyTruthy ts = false then []
  else
    match ts with
    | .i n => ("ts:").data ++ intRepr n
    | .q x => ("ts:").data ++ ratRepr x
    | _ => pyStr ts

/-- Numeric view of a counter field for `+=`; a non-numeric value would
raise `TypeError` in Python (the feed uses integers) and counts as 0. -/
def toQ : JVal → ℚ
  | .i n => (n : ℚ)
  | .q x => x
  | .b v => if v then 1 else 0
  | _ => 0

/-- `list.extend(x)` semantics: a list contributes its items, a string
its characters; other truthy values would raise in Python and
contribute nothing here. -/
def elems : JVal → List JVal
  | .arr l => l
  | .s cs => cs.map (fun c => JVal.s [c])
  | _ => []

/-- The per-node accumulator built by `parse_nodes_with_services`
(`node_name` plus the `temp_*` fields; the dead `services` slot the
source initializes but never reads is omitted). -/
structure NAccum where
  nodeName : JVal
  tempResults : List JVal
  tempTotal : ℚ
  tempSuccess : ℚ
  tempLatency : JVal

/-- Accumulate one `node_info` block into a node's accumulator. -/
def nAccumUpdate (nd : NAccum) (nf : PyDict) : NAccum :=
  let la := dGetD nf (("latency_avg").data) .null
  { nd with
      tempResults := nd.tempResults ++ elems (pyOrJ (dGetD nf (("results").data) .null) (.arr []))
      tempTotal := nd.tempTotal + toQ (dGetD nf (("count_total").data) (.i 0))
      tempSuccess := nd.tempSuccess + toQ (dGetD nf (("count_success").data) (.i 0))
      tempLatency := if pyTruthy la then dGetD nf (("latency_avg").data) (.i 0) else nd.tempLatency }

/-- Insert-or-update the `nodes_data` map for one observed node. -/
def nodesDataUpdate (acc : List (Int × NAccum)) (nid : Int) (nf : PyDict) :
    List (Int × NAccum) :=
  match acc.find? (fun p => decide (p.1 = nid)) with
  | some _ => acc.map (fun p => if p.1 = nid then ((nid, nAccumUpdate p.2 nf)) else p)
  | none =>
      acc ++ [((nid, nAccumUpdate
        { nodeName := pyOrJ (dGetD nf (("node_name_zh").data) .null)
            (dGetD nf (("node_name_en").data) (.s []))
          tempResults := []
          tempTotal := 0
          tempSuccess := 0
          tempLatency := .i 0 } nf))]

/-- One timeline block of `parse_nodes_with_services`: iterate its
`nodes` dict, skipping non-dict infos and missing node ids (a
non-integer id is skipped as well: in Python it would later make
`sorted` raise on mixed key types; the feed uses integers). -/
def nodeBlockStep (acc : List (Int × NAccum)) (block : JVal) : List (Int × NAccum) :=
  match block with
  | .obj bf =>
      (asObj (pyOrJ (dGetD bf (("nodes").data) .null) (.obj []))).foldl
        (fun acc2 p =>
          match p.2 with
          | .obj nf =>
              match dGetD nf (("node_id").data) .null with
              | .i nid => nodesDataUpdate acc2 nid nf
              | _ => acc2
          | _ => acc2) acc
  | _ => acc

/-- `sorted(nodes_data.items())` (stable sort on the integer key). -/
def sortPairsNA (l : List (Int × NAccum)) : List (Int × NAccum) :=
  l.insertionSort (fun a b => a.1 ≤ b.1)

/-- `parse_nodes_with_services`: per-node aggregation of one service's
timeline into `(node_id, node_name, service_entry)` rows. -/
def parseNodes (sf : PyDict) (serviceName : List Char) : List (Int × JVal × JVal) :=
  let tl := pyOrJ (dGetD sf (("timeline").data) .null) (.arr [])
  match tl with
  | .arr blocks =>
      let nodesData := blocks.foldl nodeBlockStep []
      (sortPairsNA nodesData).map (fun p =>
        let nd := p.2
        let avail : ℚ := if nd.tempTotal > 0 then nd.tempSuccess / nd.tempTotal else 0
        let results := lastN 50 nd.tempResults
        let recent :=
          match results.getLast? with
          | none => ("unknown").data
          | some r => codeKeyToStr r
        ((p.1, nd.nodeName, JVal.obj
          [((("name").data, JVal.s serviceName)),
           ((("status").data, JVal.s recent)),
           ((("availability").data, JVal.q avail)),
           ((("latency_avg").data, nd.tempLatency)),
           ((("results").data, JVal.arr results))])))
  | _ => []

/-- The `for node_key, node_info in nodes.items()` loop of
`parse_timeline_simple`: return from the first dict-shaped node. -/
def firstDictNode : PyDict → List (List Char)
  | [] => []
  | (_, .obj nf) :: _ =>
      (lastN 50 (elems (pyOrJ (dGetD nf (("results").data) .null) (.arr [])))).map
        statusCodeToStr
  | _ :: rest => firstDictNode rest

/-- `parse_timeline_simple`: status strings of the first node of the
first timeline block. -/
def parseTimelineSimple (sf : PyDict) : List (List Char) :=
  let tl := pyOrJ (dGetD sf (("timeline").data) .null) (.arr [])
  match tl with
  | .arr [] => []
  | .arr (fb :: _) =>
      firstDictNode (asObj (pyOrJ (dGetD (asObj fb) (("nodes").data) .null) (.obj [])))
  | _ => []

/-- `normalize_health.add_entry`: append an entry to its group bucket
(`unknown` when the group text is empty), keeping insertion order. -/
def addEntry (groups : List (List Char × List JVal)) (entry : JVal) :
    List (List Char × List JVal) :=
  let ef := asObj entry
  let grp0 := pyStr (pyOrJ (dGetD ef (("group").data) (.s [])) (.s []))
  let grp := if grp0 = [] then ("unknown").data else grp0
  match groups.find? (fun p => decide (p.1 = grp)) with
  | some _ => groups.map (fun p => if p.1 = grp then ((p.1, p.2 ++ [entry])) else p)
  | none => groups ++ [((grp, [entry]))]

/-- Merge one `(node_id, node_name, service)` row into
`nodes_aggregated` (first name wins, services append in order). -/
def nodesAggAdd (na : List (Int × (JVal × List JVal))) (nid : Int) (nname : JVal)
    (svc : JVal) : List (Int × (JVal × List JVal)) :=
  match na.find? (fun p => decide (p.1 = nid)) with
  | some _ => na.map (fun p => if p.1 = nid then ((nid, (p.2.1, p.2.2 ++ [svc]))) else p)
  | none => na ++ [((nid, (nname, [svc])))]

/-- One service record of the main `normalize_health` loop: skip
non-dict records and non-matching channels, otherwise aggregate node
data and add the display entry to its group. -/
def svcStep (aiType : List Char) (generatedAt : JVal)
    (st : (List (List Char × List JVal)) × (List (Int × (JVal × List JVal))))
    (svc : JVal) :
    (List (List Char × List JVal)) × (List (Int × (JVal × List JVal))) :=
  match svc with
  | .obj sf =>
      if isMatchingChannel sf aiType = false then st
      else
        let current := asObj (pyOrJ (dGetD sf (("current_status").data) .null) (.obj []))
        let statusCode := dGetD current (("status").data) (.i 0)
        let serviceName := pyStr (pyOrJ (dGetD sf (("channel_name").data) .null)
          (dGetD sf (("model_name").data) (.s [])))
        let nodeEntries := parseNodes sf serviceName
        let nodesAgg := nodeEntries.foldl (fun na ne => nodesAggAdd na ne.1 ne.2.1 ne.2.2) st.2
        let entry := JVal.obj
          [((("status").data, JVal.s (statusCodeToStr statusCode))),
           ((("lastCheck").data, JVal.s (timestampToIso generatedAt))),
           ((("model").data, JVal.s (pyStr (dGetD sf (("model_name").data) (.s []))))),
           ((("name").data, JVal.s serviceName)),
           ((("group").data, JVal.s (pyStr (pyOrJ (dGetD sf (("provider_name").data) .null)
             (dGetD sf (("provider_code").data) (.s [])))))),
           ((("latency").data, JVal.s (pyStr (dGetD current (("latency_ms").data) (.s []))))),
           ((("uptime").data, JVal.s (pyStr (dGetD current (("uptime_percent").data) (.s []))))),
           ((("nodes_by_service").data, JVal.arr [])),
           ((("timeline").data, JVal.arr ((parseTimelineSimple sf).map (fun s => JVal.s s))))]
        ((addEntry st.1 entry, nodesAgg))
  | _ => st

/-- `groups["__nodes__"] = nodes_list` (replace in place or append). -/
def assocSet (groups : List (List Char × List JVal)) (k : List Char) (v : List JVal) :
    List (List Char × List JVal) :=
  match groups.find? (fun p => decide (p.1 = k)) with
  | some _ => groups.map (fun p => if p.1 = k then ((k, v)) else p)
  | none => groups ++ [((k, v))]

/-- `sorted(nodes_aggregated.items())`. -/
def sortPairsNodes (l : List (Int × (JVal × List JVal))) : List (Int × (JVal × List JVal)) :=
  l.insertionSort (fun a b => a.1 ≤ b.1)

/-- The tail of `normalize_health` after the services fold: attach the
aggregated node view under the reserved `__nodes__` key when any node
was seen. -/
def normalizeFromFold
    (final : (List (List Char × List JVal)) × (List (Int × (JVal × List JVal)))) :
    List (List Char × List JVal) :=
  if final.2.isEmpty then final.1
  else
    assocSet final.1 (("__nodes__").data)
      ((sortPairsNodes final.2).map (fun p => JVal.obj
        [((("node_id").data, JVal.i p.1)),
         ((("node_name").data, p.2.1)),
         ((("services").data, JVal.arr p.2.2))]))

/-- `normalize_health`: unwrap the `{code: 200, data: {...}}` envelope,
then fold the `services` list into per-group entries plus the node
aggregate.  A document that is not a dict, or has no `services` list,
yields the empty snapshot. -/
def normalizeHealth (data : JVal) (aiType : List Char) : List (List Char × List JVal) :=
  match data with
  | .obj fields0 =>
      let fields :=
        if jEqInt (dGetD fields0 (("code").data) .null) 200 then
          match dGet fields0 (("data").data) with
          | some (.obj inner) => inner
          | _ => fields0
        else fields0
      let generatedAt := dGetD fields (("generated_at").data) .null
      match dGet fields (("services").data) with
      | some (.arr svcs) =>
          normalizeFromFold (svcs.foldl (svcStep aiType generatedAt) (([], [])))
      | _ => []
  | _ => []

/-- A health document with a generation timestamp and a services list
(the shape served by the monitoring endpoint). -/
def mkHealthDoc (gen : JVal) (svcs : List JVal) : JVal :=
  .obj [((("generated_at").data, gen)), ((("services").data, JVal.arr svcs))]

/-- One transport attempt's outcome as seen by `fetch_health_status`:
the HTTP library is missing, the request raised, or a response arrived
whose body parses to a document or raises with a message. -/
inductive Transport where
  | importErr
  | netExc (msg : List Char)
  | resp (status : Nat) (parsed : Except (List Char) JVal)

/-- The `requests` fallback branch of `fetch_health_status`. -/
def fallbackFetch (rq : Transport) (aiType : List Char) :
    (List (List Char × List JVal)) × List Char :=
  match rq with
  | .importErr => (([], ("请安装 requests 或 cloudscraper").data))
  | .netExc m => (([], m.take 60))
  | .resp s pr =>
      if s = 200 then
        match pr with
        | .ok d => ((normalizeHealth d aiType, []))
        | .error m => (([], m.take 60))
      else (([], ("HTTP ").data ++ natRepr s ++ (" (可能被 CF 盾拦截)").data))

/-- `fetch_health_status`: try the cloudscraper attempt, fall back to
the requests attempt on any non-success (non-200, parse failure,
exception, or missing library). -/
def fetchHealthStatus (cs rq : Transport) (aiType : List Char) :
    (List (List Char × List JVal)) × List Char :=
  match cs with
  | .resp s (.ok d) =>
      if s = 200 then ((normalizeHealth d aiType, [])) else fallbackFetch rq aiType
  | _ => fallbackFetch rq aiType

/-- Whether a transport outcome is a parsed 200 response. -/
def isOk200 : Transport → Bool
  | .resp 200 (.ok _) => true
  | _ => false

/-! ## Claim C9 — the health-fetch worker guard (`src/tui.py` 459-488) -/

/-- The poller-relevant state: the configured URL, the tracked thread
(`_health_thread` existence and liveness), the number of live fetch
workers, and the fields the worker or `refresh_health` touch. -/
structure PollState where
  healthUrl : List Char
  hasThread : Bool
  threadAlive : Bool
  liveWorkers : Nat
  healthLoading : Bool
  healthError : List Char
  healthMap : List (List Char × List JVal)
  messages : List (List Char)

/-- `TUI.refresh_health`: skip (with a message) on an empty URL, drop
the request when the tracked thread is alive, else mark loading and
start one worker. -/
def refreshHealth (st : PollState) : PollState :=
  if st.healthUrl = [] then
    { st with messages := pushMsg st.messages (("[跳过] 状态站 URL 为空").data) }
  else if st.hasThread = true ∧ st.threadAlive = true then st
  else
    { st with
        healthLoading := true
        healthError := []
        messages := pushMsg st.messages (("[状态] 正在获取...").data)
        hasThread := true
        threadAlive := true
        liveWorkers := st.liveWorkers + 1 }

/-- The `_fetch` worker body finishing with snapshot `h` and error
`err`: publish the snapshot, clear the loading flag, log, and die. -/
def workerFinish (st : PollState) (h : List (List Char × List JVal)) (err : List Char) :
    PollState :=
  { st with
      threadAlive := false
      liveWorkers := st.liveWorkers - 1
      healthMap := h
      healthLoading := false
      healthError := if err ≠ [] then err.take 60 else st.healthError
      messages := pushMsg st.messages
        (if err ≠ [] then ("[状态] 获取失败: ").data ++ err.take 60
         else if h.isEmpty then ("[状态] 返回为空").data
         else ("[状态] 已获取 ").data ++ natRepr h.length ++ (" 组").data) }

/-- The events touching the poller state: a refresh request, a worker
finishing (only a live worker can finish), and a settings edit of the
URL. -/
inductive PollStep : PollState → PollState → Prop where
  | refresh (st : PollState) : PollStep st (refreshHealth st)
  | finish (st : PollState) (h : List (List Char × List JVal)) (err : List Char)
      (halive : st.threadAlive = true) : PollStep st (workerFinish st h err)
  | setUrl (st : PollState) (u : List Char) : PollStep st { st with healthUrl := u }

/-- The startup poller state (`__init__`: no thread yet, default URL). -/
def pollInit : PollState :=
  { healthUrl := ("https://api-api-db.lib00.com/v1/monitor/data?range=24h").data
    hasThread := false
    threadAlive := false
    liveWorkers := 0
    healthLoading := false
    healthError := []
    healthMap := []
    messages := [] }

/-- The worker-count invariant: exactly one live worker while the
tracked thread is alive, none otherwise. -/
def pollInv (st : PollState) : Prop :=
  st.liveWorkers = (if st.hasThread = true ∧ st.threadAlive = true then 1 else 0)

end AiSwitch

namespace AiSwitch

/-- Claim C4: the numeric status-code translation maps 1 to `ok`, 2 to
`slow`, 3 to `error`, and every other integer (e.g. 9) to `unknown`,
both for a service's current status (`status_code_to_str`) and for the
last entry of a timeline result list (the inline code map in
`parse_nodes_with_services`). -/
theorem claim4_status_code_map (c : Int) (h1 : c ≠ 1) (h2 : c ≠ 2) (h3 : c ≠ 3) :
    statusCodeToStr (.i 1) = ("ok").data ∧
    statusCodeToStr (.i 2) = ("slow").data ∧
    statusCodeToStr (.i 3) = ("error").data ∧
    statusCodeToStr (.i c) = ("unknown").data ∧
    codeKeyToStr (.i 1) = ("ok").data ∧
    codeKeyToStr (.i 2) = ("slow").data ∧
    codeKeyToStr (.i 3) = ("error").data ∧
    codeKeyToStr (.i c) = ("unknown").data := by
  refine ⟨rfl, rfl, rfl, ?_, rfl, rfl, rfl, ?_⟩ <;>
    simp [statusCodeToStr, codeKeyToStr, h1, h2, h3]

/-- Witness for C4, at the unrecognized code 9 named by the spec. -/
theorem claim4_witness :
    statusCodeToStr (.i 9) = ("unknown").data ∧
    codeKeyToStr (.i 9) = ("unknown").data := by
  have h := claim4_status_code_map 9 (by decide) (by decide) (by decide)
  exact ⟨h.2.2.2.1, h.2.2.2.2.2.2.2⟩

/-- Specification of the `_choose_status` fold: the accumulator only
improves, the result is either the initial accumulator or a status seen
in the list together with its own score, and the final score is a lower
bound on every status's score. -/
theorem chooseFold_spec (l : List PyDict) :
    ∀ acc : List Char × Nat,
      (l.foldl chooseStep acc = acc ∨
        ((l.foldl chooseStep acc).1 ∈ l.map stOf ∧
          (l.foldl chooseStep acc).2 = severityScore (l.foldl chooseStep acc).1)) ∧
      (l.foldl chooseStep acc).2 ≤ acc.2 ∧
      ∀ e ∈ l, (l.foldl chooseStep acc).2 ≤ severityScore (stOf e) := by
  induction l with
  | nil =>
      intro acc
      refine ⟨Or.inl rfl, le_refl _, ?_⟩
      intro e he
      exact absurd he (List.not_mem_nil e)
  | cons e t ih =>
      intro acc
      simp only [List.foldl_cons]
      obtain ⟨ha, hb, hc⟩ := ih (chooseStep acc e)
      by_cases hsc : severityScore (stOf e) < acc.2
      · have hstep : chooseStep acc e = ((stOf e, severityScore (stOf e))) := by
          unfold chooseStep
          rw [if_pos hsc]
        have hb2 : (chooseStep acc e).2 = severityScore (stOf e) := by rw [hstep]
        have hb' : (t.foldl chooseStep (chooseStep acc e)).2 ≤ severityScore (stOf e) := by
          rw [← hb2]
          exact hb
        refine ⟨?_, le_trans hb' (le_of_lt hsc), ?_⟩
        · rcases ha with h | h
          · refine Or.inr ⟨?_, ?_⟩
            · rw [h, hstep, List.map_cons]
              exact List.mem_cons_self _ _
            · rw [h, hstep]
          · refine Or.inr ⟨?_, h.2⟩
            rw [List.map_cons]
            exact List.mem_cons_of_mem _ h.1
        · intro e' he'
          rcases List.mem_cons.mp he' with h | h
          · rw [h]
            exact hb'
          · exact hc e' h
      · have hstep : chooseStep acc e = acc := by
          unfold chooseStep
          rw [if_neg hsc]
        have hb2 : (chooseStep acc e).2 = acc.2 := by rw [hstep]
        have hb' : (t.foldl chooseStep (chooseStep acc e)).2 ≤ acc.2 := by
          rw [← hb2]
          exact hb
        refine ⟨?_, hb', ?_⟩
        · rcases ha with h | h
          · exact Or.inl (h.trans hstep)
          · refine Or.inr ⟨?_, h.2⟩
            rw [List.map_cons]
            exact List.mem_cons_of_mem _ h.1
        · intro e' he'
          rcases List.mem_cons.mp he' with h | h
          · rw [h]
            exact le_trans hb' (Nat.le_of_not_lt hsc)
          · exact hc e' h

/-- The source's severity scores order recognized statuses exactly as
the spec's coarser tiers do. -/
theorem severity_tier_mono :
    ∀ s ∈ recognizedStatuses, ∀ u ∈ recognizedStatuses,
      severityScore s ≤ severityScore u → specSeverityTier s ≤ specSeverityTier u := by
  decide

/-- A recognized status scores at most 4 (the `unknown` score). -/
theorem severity_le_four : ∀ s ∈ recognizedStatuses, severityScore s ≤ 4 := by
  decide

/-- Only `error` and `failed` score zero. -/
theorem severity_eq_zero (s : List Char) (h : severityScore s = 0) :
    s = ("error").data ∨ s = ("failed").data := by
  unfold severityScore at h
  split_ifs at h with h1 h2 h3 h4 h5 h6 h7
  · exact Or.inl h1
  · exact Or.inr h2

/-- Claim C3: `_choose_status` returns, for every non-empty entry list
drawn from the recognized statuses, the icon/severity of a worst-case
status under the spec ordering `error/failed < slow/degraded <
ok/operational < unknown` (in particular any list containing an `error`
entry yields the error icon), and for an empty list it returns the
distinct "no data" unknown icon, never the error icon. -/
theorem claim3_choose_status_pessimistic (entries : List PyDict)
    (hrec : ∀ e ∈ entries, stOf e ∈ recognizedStatuses) :
    (chooseStatus [] = (("○").data, 1) ∧ chooseStatus [] ≠ statusIcon (("error").data)) ∧
    (entries ≠ [] →
      ∃ s ∈ entries.map stOf, chooseStatus entries = statusIcon s ∧
        ∀ u ∈ entries.map stOf, specSeverityTier s ≤ specSeverityTier u) ∧
    ((("error").data ∈ entries.map stOf) → chooseStatus entries = statusIcon (("error").data)) := by
  have hfold : entries.foldl chooseStep ((("unknown").data, 99)) = chooseBest entries := rfl
  obtain ⟨ha, _hb, hc⟩ := chooseFold_spec entries ((("unknown").data, 99))
  rw [hfold] at ha _hb hc
  refine ⟨⟨rfl, by decide⟩, ?_, ?_⟩
  · intro hne
    obtain ⟨e₀, he₀⟩ := List.exists_mem_of_ne_nil entries hne
    have hbound : (chooseBest entries).2 ≤ severityScore (stOf e₀) := hc e₀ he₀
    have h4 : (chooseBest entries).2 ≤ 4 :=
      le_trans hbound (severity_le_four _ (hrec e₀ he₀))
    have hne99 : ¬ (chooseBest entries = ((("unknown").data, 99))) := by
      intro heq
      have h99 : (chooseBest entries).2 = 99 := by rw [heq]
      omega
    rcases ha with h | h
    · exact absurd h hne99
    · refine ⟨(chooseBest entries).1, h.1, ?_, ?_⟩
      · unfold chooseStatus
        have hni : entries.isEmpty = false := by
          cases entries with
          | nil => exact absurd rfl hne
          | cons a l => rfl
        rw [hni]
        simp
      · intro u hu
        obtain ⟨e', he', hee⟩ := List.mem_map.mp hu
        have hscore : (chooseBest entries).2 ≤ severityScore u := by
          rw [← hee]; exact hc e' he'
        rw [h.2] at hscore
        refine severity_tier_mono _ ?_ _ ?_ hscore
        · obtain ⟨e'', he'', hee''⟩ := List.mem_map.mp h.1
          rw [← hee'']; exact hrec e'' he''
        · rw [← hee]; exact hrec e' he'
  · intro herr
    obtain ⟨eE, heE, heEeq⟩ := List.mem_map.mp herr
    have hne : entries ≠ [] := by
      intro h; subst h; exact absurd heE (List.not_mem_nil eE)
    have hbound : (chooseBest entries).2 ≤ severityScore (stOf eE) := hc eE heE
    rw [heEeq] at hbound
    have hzero : (chooseBest entries).2 = 0 := by
      have hz : severityScore (("error").data) = 0 := by decide
      omega
    have hne99 : ¬ (chooseBest entries = ((("unknown").data, 99))) := by
      intro heq
      have h99 : (chooseBest entries).2 = 99 := by rw [heq]
      omega
    rcases ha with h | h
    · exact absurd h hne99
    · have hsz : severityScore (chooseBest entries).1 = 0 := by
        rw [← h.2]; exact hzero
      have hef := severity_eq_zero _ hsz
      unfold chooseStatus
      have hni : entries.isEmpty = false := by
        cases entries with
        | nil => exact absurd rfl hne
        | cons a l => rfl
      rw [hni]
      simp only [Bool.false_eq_true, if_false]
      rcases hef with h' | h' <;> rw [h'] <;> decide

/-- Witness for C3: a two-entry group with statuses `ok` and `error`
aggregates to the error icon. -/
theorem claim3_witness :
    chooseStatus [[((("status").data, JVal.s (("ok").data)))],
                  [((("status").data, JVal.s (("error").data)))]] =
      statusIcon (("error").data) := by
  exact (claim3_choose_status_pessimistic
    [[((("status").data, JVal.s (("ok").data)))],
     [((("status").data, JVal.s (("error").data)))]] (by decide)).2.2 (by decide)

/-- Claim C10: key redaction is noninterfering with the hidden middle of
the secret — two keys of equal length agreeing on their first 8 and last
4 characters produce identical `maskKey` output, so the masked display
is a function only of (length, first 8, last 4). -/
theorem claim10_mask_noninterference (k₁ k₂ : List Char)
    (hlen : k₁.length = k₂.length)
    (hhead : k₁.take 8 = k₂.take 8)
    (htail : k₁.drop (k₁.length - 4) = k₂.drop (k₂.length - 4)) :
    maskKey k₁ = maskKey k₂ := by
  have htake4 : k₁.take 4 = k₂.take 4 := by
    have h := congrArg (List.take 4) hhead
    simpa [List.take_take] using h
  have hdrop2 : k₁.drop (k₁.length - 2) = k₂.drop (k₂.length - 2) := by
    rcases Nat.lt_or_ge k₁.length 4 with hlt | hge
    · -- length < 4 makes the last-4 slice the whole string
      have h1 : k₁.length - 4 = 0 := by omega
      have h2 : k₂.length - 4 = 0 := by omega
      rw [h1, List.drop_zero] at htail
      rw [h2, List.drop_zero] at htail
      rw [htail]
    · have h2 := congrArg (List.drop 2) htail
      rw [List.drop_drop, List.drop_drop] at h2
      have e1 : k₁.length - 2 = k₁.length - 4 + 2 := by omega
      have e2 : k₂.length - 2 = k₂.length - 4 + 2 := by omega
      rw [e1, e2]
      exact h2
  have hemp : k₁.isEmpty = k₂.isEmpty := by
    cases k₁ <;> cases k₂ <;> simp_all
  unfold maskKey
  rw [hemp, htake4, hhead, hdrop2, htail, hlen]

/-- Witness for C10: two 20-character keys with the same first 8 and
last 4 characters but different middles mask identically. -/
theorem claim10_witness :
    maskKey (("sk-12345mmmmmmmmwxyz").data) = maskKey (("sk-12345nnnnnnnnwxyz").data) := by
  exact claim10_mask_noninterference _ _ (by decide) (by decide) (by decide)

/-- `startswith` holds on any extension of the prefix. -/
theorem listStartsWith_append (p rest : List Char) :
    listStartsWith p (p ++ rest) = true := by
  induction p with
  | nil => rfl
  | cons a as_ ih => simp [listStartsWith, ih]

/-- `dropWhile` is the identity when the head does not satisfy the
predicate. -/
theorem dropWhile_eq_self_of_head (p : Char → Bool) (l : List Char)
    (h : ∀ c, l.head? = some c → p c = false) : l.dropWhile p = l := by
  cases l with
  | nil => rfl
  | cons a t => simp [List.dropWhile_cons, h a rfl]

/-- `strip()` is the identity on text with non-space first and last
characters. -/
theorem pyStrip_eq_self (l : List Char)
    (hh : ∀ c, l.head? = some c → pySpace c = false)
    (hl : ∀ c, l.getLast? = some c → pySpace c = false) : pyStrip l = l := by
  unfold pyStrip
  rw [dropWhile_eq_self_of_head _ _ hh]
  rw [dropWhile_eq_self_of_head _ _ (fun c hc => hl c (by rwa [List.head?_reverse] at hc))]
  exact List.reverse_reverse l

/-- An export line starts with the letter `e`. -/
theorem exportLine_head (k v : List Char) :
    (exportLine k v).head? = some 'e' := rfl

/-- An export line ends with a double quote. -/
theorem exportLine_last (k v : List Char) :
    (exportLine k v).getLast? = some '"' := by
  unfold exportLine
  exact List.getLast?_concat _

/-- Stripping an export line changes nothing. -/
theorem pyStrip_exportLine (k v : List Char) :
    pyStrip (exportLine k v) = exportLine k v := by
  refine pyStrip_eq_self _ ?_ ?_
  · intro c hc
    rw [exportLine_head] at hc
    cases hc
    rfl
  · intro c hc
    rw [exportLine_last] at hc
    cases hc
    rfl

/-- An export line decomposes as its `should_keep` test prefix plus a
remainder. -/
theorem exportLine_eq_pre_append (k v : List Char) :
    exportLine k v = exportPre k ++ ('"' :: (v ++ ['"'])) := by
  simp [exportLine, exportPre]

/-- `should_keep` rejects the export line of any key being written. -/
theorem shouldKeep_exportLine (keys : List (List Char)) (k v : List Char)
    (hk : k ∈ keys) : shouldKeep keys (exportLine k v) = false := by
  cases h : shouldKeep keys (exportLine k v) with
  | false => rfl
  | true =>
      exfalso
      rw [shouldKeep, List.all_eq_true] at h
      have hx := h k hk
      rw [pyStrip_exportLine] at hx
      rw [exportLine_eq_pre_append, listStartsWith_append] at hx
      simp at hx

/-- `should_keep` keeps a blank line. -/
theorem shouldKeep_nil (keys : List (List Char)) : shouldKeep keys [] = true := by
  rw [shouldKeep, List.all_eq_true]
  intro k _hk
  have h1 : listStartsWith (exportPre k) (pyStrip []) = false := rfl
  have h2 : listStartsWith (k ++ ['=']) (pyStrip []) = false := by
    cases k <;> rfl
  rw [h1, h2]
  rfl

/-- Filtering a filtered line list again changes nothing. -/
theorem filter_self_of_filter (p : List Char → Bool) (L : List (List Char)) :
    (L.filter p).filter p = L.filter p := by
  induction L with
  | nil => rfl
  | cons a t ih =>
      by_cases h : p a = true
      · simp [List.filter_cons, h, ih]
      · simp [List.filter_cons, h, ih]

/-- A non-boundary character is not the newline. -/
theorem not_nl_of_not_boundary (c : Char) (h : isLineBoundary c = false) : c ≠ '\n' := by
  intro hx
  rw [hx] at h
  exact absurd h (by decide)

/-- A non-boundary character is not the carriage return. -/
theorem not_cr_of_not_boundary (c : Char) (h : isLineBoundary c = false) : c ≠ '\r' := by
  intro hx
  rw [hx] at h
  exact absurd h (by decide)

set_option maxHeartbeats 2000000 in
/-- Unfolding `splitLines` at a non-`\r` head character. -/
theorem splitLines_cons (c : Char) (rest : List Char) (hcr : c ≠ '\r') :
    splitLines (c :: rest) = splitLinesStep c (splitLines rest) := by
  rw [splitLines]
  · exact fun _ h' _ => hcr h'
  · exact fun h' => hcr h'

/-- Unfolding `splitLines` at a `\r\n` boundary. -/
theorem splitLines_crlf (rest : List Char) :
    splitLines ('\r' :: '\n' :: rest) = [] :: splitLines rest := rfl

/-- A boundary character closes the current line. -/
theorem splitLinesStep_boundary (c : Char) (r : List (List Char))
    (hb : isLineBoundary c = true) : splitLinesStep c r = [] :: r := by
  unfold splitLinesStep
  rw [hb]
  rfl

/-- A non-boundary character extends the first line of the tail. -/
theorem splitLinesStep_not_boundary (c : Char) (r : List (List Char))
    (hb : isLineBoundary c = false) :
    splitLinesStep c r =
      (match r with
       | [] => [[c]]
       | l :: ls => (c :: l) :: ls) := by
  unfold splitLinesStep
  rw [hb]
  simp only [Bool.false_eq_true, if_false]

/-- Splitting after appending one boundary-free line and a newline
peels off that line. -/
theorem splitLines_append (l rest : List Char) (h : ∀ c ∈ l, isLineBoundary c = false) :
    splitLines (l ++ '\n' :: rest) = l :: splitLines rest := by
  induction l with
  | nil =>
      rw [List.nil_append]
      rfl
  | cons c t ih =>
      have hc := h c (List.mem_cons_self c t)
      have hcr := not_cr_of_not_boundary c hc
      have ht := fun x hx => h x (List.mem_cons_of_mem _ hx)
      rw [List.cons_append, splitLines_cons c _ hcr,
        splitLinesStep_not_boundary c _ hc, ih ht]

/-- Writing newline-terminated boundary-free lines and reading them
back returns the same lines (an empty write reads back as one blank
line). -/
theorem splitLines_roundtrip (L : List (List Char))
    (h : ∀ l ∈ L, ∀ c ∈ l, isLineBoundary c = false) :
    splitLines (joinNl L ++ ['\n']) = if L = [] then [[]] else L := by
  induction L with
  | nil =>
      rw [if_pos rfl]
      decide
  | cons l L' ih =>
      cases L' with
      | nil =>
          simp only [joinNl, if_neg (by simp : ¬(([l] : List (List Char)) = []))]
          have h2 := splitLines_append l [] (h l (List.mem_cons_self _ _))
          rw [show splitLines ([] : List Char) = [] from rfl] at h2
          exact h2
      | cons l2 L'' =>
          rw [joinNl]
          rw [show (l ++ '\n' :: joinNl (l2 :: L'')) ++ ['\n'] =
            l ++ '\n' :: (joinNl (l2 :: L'') ++ ['\n']) from by simp]
          rw [splitLines_append l _ (h l (List.mem_cons_self _ _))]
          rw [ih (fun x hx => h x (List.mem_cons_of_mem _ hx))]
          simp

/-- Every line produced by `splitLines` is free of line boundaries. -/
theorem splitLines_clean (t : List Char) :
    ∀ l ∈ splitLines t, ∀ c ∈ l, isLineBoundary c = false := by
  induction t using splitLines.induct with
  | case1 =>
      intro l hl
      exact absurd hl (List.not_mem_nil l)
  | case2 rest ih =>
      intro l hl
      rw [splitLines_crlf] at hl
      rcases List.mem_cons.mp hl with h | h
      · subst h
        intro c hc
        exact absurd hc (List.not_mem_nil c)
      · exact ih l h
  | case3 rest hne ih =>
      intro l hl
      rw [splitLines] at hl
      · rcases List.mem_cons.mp hl with h | h
        · subst h
          intro c hc
          exact absurd hc (List.not_mem_nil c)
        · exact ih l h
      · exact hne
  | case4 c rest h1 h2 ih =>
      intro l hl
      rw [splitLines_cons c rest (fun hx => h2 hx)] at hl
      by_cases hb : isLineBoundary c = true
      · rw [splitLinesStep_boundary c _ hb] at hl
        rcases List.mem_cons.mp hl with h | h
        · subst h
          intro x hx
          exact absurd hx (List.not_mem_nil x)
        · exact ih l h
      · have hbf : isLineBoundary c = false := Bool.eq_false_iff.mpr hb
        rw [splitLinesStep_not_boundary c _ hbf] at hl
        cases heq : splitLines rest with
        | nil =>
            rw [heq] at hl
            simp at hl
            subst hl
            intro x hx
            rw [List.mem_singleton] at hx
            subst hx
            exact hbf
        | cons l0 ls0 =>
            rw [heq] at hl
            simp only [List.mem_cons] at hl
            rcases hl with h | h
            · subst h
              intro x hx
              rcases List.mem_cons.mp hx with h' | h'
              · subst h'
                exact hbf
              · exact ih l0 (by rw [heq]; exact List.mem_cons_self _ _) x h'
            · exact ih l (by rw [heq]; exact List.mem_cons_of_mem _ h)

/-- `rstrip("\n")` is the identity on a newline-free line. -/
theorem rstripNl_eq_self (l : List Char) (h : ∀ c ∈ l, c ≠ '\n') : rstripNl l = l := by
  unfold rstripNl
  rw [dropWhile_eq_self_of_head]
  · exact List.reverse_reverse l
  · intro c hc
    rw [List.head?_reverse] at hc
    have hmem : c ∈ l := by
      obtain ⟨hne, rfl⟩ := List.mem_getLast?_eq_getLast (Option.mem_def.mpr hc)
      exact List.getLast_mem hne
    simp [h c hmem]

/-- `rstrip("\n")` only removes characters. -/
theorem mem_rstripNl (c : Char) (l : List Char) (h : c ∈ rstripNl l) : c ∈ l := by
  unfold rstripNl at h
  rw [List.mem_reverse] at h
  have hrev := (List.dropWhile_sublist (fun c => decide (c = '\n'))).mem h
  rwa [List.mem_reverse] at hrev

/-- Adding the blank separator twice never happens: the separator step
is idempotent. -/
theorem wpSep_idem (F : List (List Char)) : wpSep (wpSep F) = wpSep F := by
  unfold wpSep
  by_cases h : F ≠ [] ∧ pyStrip ((F.getLast?).getD []) ≠ []
  · rw [if_pos h]
    have hlast : ((F ++ [[]]).getLast?).getD [] = ([] : List Char) := by
      rw [List.getLast?_concat]
      rfl
    rw [if_neg]
    intro hcond
    rw [hlast] at hcond
    exact hcond.2 rfl
  · rw [if_neg h, if_neg h]

/-- The kept lines of a first pass all survive a second filter. -/
theorem filter_wpSep (keys : List (List Char)) (t : List Char) :
    (wpSep (wpFiltered keys t)).filter (fun ln => shouldKeep keys ln) =
      wpSep (wpFiltered keys t) := by
  unfold wpSep
  split_ifs with h
  · rw [List.filter_append]
    rw [show wpFiltered keys t =
      ((splitLines t).map rstripNl).filter (fun ln => shouldKeep keys ln) from rfl]
    rw [filter_self_of_filter]
    have hsep : ([[]] : List (List Char)).filter (fun ln => shouldKeep keys ln) = [[]] := by
      simp [List.filter_cons, shouldKeep_nil]
    rw [hsep]
  · rw [show wpFiltered keys t =
      ((splitLines t).map rstripNl).filter (fun ln => shouldKeep keys ln) from rfl]
    rw [filter_self_of_filter]

/-- The kept lines of a pass are free of line boundaries. -/
theorem wpSep_clean (keys : List (List Char)) (t : List Char) :
    ∀ l ∈ wpSep (wpFiltered keys t), ∀ c ∈ l, isLineBoundary c = false := by
  intro l hl
  have hbase : ∀ l' ∈ wpFiltered keys t, ∀ c ∈ l', isLineBoundary c = false := by
    intro l' hl' c hc
    unfold wpFiltered at hl'
    have hm := List.mem_of_mem_filter hl'
    obtain ⟨l0, hl0, rfl⟩ := List.mem_map.mp hm
    exact splitLines_clean t l0 hl0 c (mem_rstripNl c l0 hc)
  unfold wpSep at hl
  split_ifs at hl with h
  · rcases List.mem_append.mp hl with h' | h'
    · exact hbase l h'
    · rw [List.mem_singleton] at h'
      subst h'
      intro c hc
      exact absurd hc (List.not_mem_nil c)
  · exact hbase l hl

/-- Counterexample to claim C5 as stated: with a value containing a
newline character (legal in an environment variable), `write_permanent`
is not idempotent — the second pass splits the export line in two,
keeps the orphaned tail, and appends a fresh export line. -/
theorem claim5_counterexample :
    writePermanent [((['K'], ['a', '\n', 'b']))]
        (writePermanent [((['K'], ['a', '\n', 'b']))] []) ≠
      writePermanent [((['K'], ['a', '\n', 'b']))] [] := by
  decide

/-- Claim C5 (amended): for every map of environment variables whose
keys and values contain no line-boundary character of Python
`str.splitlines()` (newline, carriage return, vertical tab, form feed,
file/group/record separator, next line, line separator, paragraph
separator), and every initial file content, running `write_permanent`
twice with the same variables produces file content identical to
running it once (old matching export lines are removed before the new
ones are appended). -/
theorem claim5_write_permanent_idem (env : List (List Char × List Char)) (t : List Char)
    (hclean : ∀ p ∈ env,
      (∀ c ∈ p.1, isLineBoundary c = false) ∧ (∀ c ∈ p.2, isLineBoundary c = false)) :
    writePermanent env (writePermanent env t) = writePermanent env t := by
  classical
  have hcleanE : ∀ l ∈ env.map (fun p => exportLine p.1 p.2), ∀ c ∈ l,
      isLineBoundary c = false := by
    intro l hl c hc
    obtain ⟨p, hp, rfl⟩ := List.mem_map.mp hl
    unfold exportLine at hc
    rcases List.mem_append.mp hc with hc | hc
    · rcases List.mem_append.mp hc with hc | hc
      · rcases List.mem_append.mp hc with hc | hc
        · rcases List.mem_append.mp hc with hc | hc
          · have hx : c = 'e' ∨ c = 'x' ∨ c = 'p' ∨ c = 'o' ∨ c = 'r' ∨
                c = 't' ∨ c = ' ' := by
              simpa using hc
            rcases hx with rfl | rfl | rfl | rfl | rfl | rfl | rfl <;> decide
          · exact (hclean p hp).1 c hc
        · have hx : c = '=' ∨ c = '"' := by simpa using hc
          rcases hx with rfl | rfl <;> decide
      · exact (hclean p hp).2 c hc
    · have hx : c = '"' := by simpa using hc
      subst hx
      decide
  set keys := env.map (fun p => p.1) with hkeys
  set F := wpSep (wpFiltered keys t) with hF
  set E := env.map (fun p => exportLine p.1 p.2) with hE
  have hcleanF : ∀ l ∈ F, ∀ c ∈ l, isLineBoundary c = false := wpSep_clean keys t
  have hcleanFE : ∀ l ∈ F ++ E, ∀ c ∈ l, isLineBoundary c = false := by
    intro l hl
    rcases List.mem_append.mp hl with h | h
    · exact hcleanF l h
    · exact hcleanE l h
  have hsplit1 : writePermanent env t = joinNl (F ++ E) ++ ['\n'] := rfl
  by_cases hFE : F ++ E = []
  · have hFnil : F = [] := (List.append_eq_nil.mp hFE).1
    have hEnil : E = [] := (List.append_eq_nil.mp hFE).2
    have henv : env = [] := by
      have hmap : env.map (fun p => exportLine p.1 p.2) = [] := by
        rw [← hE]
        exact hEnil
      exact List.map_eq_nil_iff.mp hmap
    subst henv
    have ht1 : writePermanent [] t = ['\n'] := by
      rw [hsplit1, hFnil]
      rfl
    rw [ht1]
    decide
  · have hround : splitLines (joinNl (F ++ E) ++ ['\n']) = F ++ E := by
      rw [splitLines_roundtrip _ hcleanFE, if_neg hFE]
    have hmapid : (F ++ E).map rstripNl = F ++ E := by
      have hid : ∀ l ∈ F ++ E, rstripNl l = l := by
        intro l hl
        exact rstripNl_eq_self l
          (fun c hc => not_nl_of_not_boundary c (hcleanFE l hl c hc))
      calc (F ++ E).map rstripNl = (F ++ E).map id := List.map_congr_left hid
        _ = F ++ E := List.map_id _
    have hfiltE : E.filter (fun ln => shouldKeep keys ln) = [] := by
      rw [List.filter_eq_nil_iff]
      intro l hl
      obtain ⟨p, hp, rfl⟩ := List.mem_map.mp hl
      rw [shouldKeep_exportLine keys p.1 p.2 (by rw [hkeys]; exact List.mem_map_of_mem _ hp)]
      simp
    rw [hsplit1]
    show joinNl (wpSep (wpFiltered keys (joinNl (F ++ E) ++ ['\n'])) ++ E) ++ ['\n'] =
      joinNl (F ++ E) ++ ['\n']
    have hwf2 : wpFiltered keys (joinNl (F ++ E) ++ ['\n']) = F := by
      unfold wpFiltered
      rw [hround, hmapid, List.filter_append, hfiltE, List.append_nil]
      rw [hF]
      exact filter_wpSep keys t
    rw [hwf2, hF, wpSep_idem]

/-- Witness for the amended C5, at a realistic two-variable profile and
a file already holding an older value for one of the keys. -/
theorem claim5_witness :
    writePermanent
        [((("ANTHROPIC_AUTH_TOKEN").data, ("sk-test").data)),
         ((("ANTHROPIC_BASE_URL").data, ("https://api.example.com").data))]
        (writePermanent
          [((("ANTHROPIC_AUTH_TOKEN").data, ("sk-test").data)),
           ((("ANTHROPIC_BASE_URL").data, ("https://api.example.com").data))]
          (("# profile\nexport ANTHROPIC_AUTH_TOKEN=\"old\"\n").data)) =
      writePermanent
        [((("ANTHROPIC_AUTH_TOKEN").data, ("sk-test").data)),
         ((("ANTHROPIC_BASE_URL").data, ("https://api.example.com").data))]
        (("# profile\nexport ANTHROPIC_AUTH_TOKEN=\"old\"\n").data) := by
  exact claim5_write_permanent_idem _ _ (by decide)

/-- The empty search string is a substring of every text (Python
`"" in s` is `True`). -/
theorem containsSub_nil_true (h : List Char) : containsSub [] h = true := by
  cases h <;> rfl

/-- The `apply_filter` loop computes the filter of the index range,
shifted by the starting index. -/
theorem filterIdxAux_spec (key : List Char) (cfgs : List PyDict) :
    ∀ n, filterIdxAux key n cfgs =
      ((List.range cfgs.length).filter
        (fun j => containsSub key (blobLower (cfgs.getD j [])))).map (fun j => j + n) := by
  induction cfgs with
  | nil => intro n; rfl
  | cons c rest ih =>
      intro n
      have hstep : filterIdxAux key n (c :: rest) =
          (if key ≠ [] ∧ containsSub key (blobLower c) = false then
            filterIdxAux key (n + 1) rest
          else n :: filterIdxAux key (n + 1) rest) := rfl
      rw [hstep, List.length_cons, List.range_succ_eq_map, List.filter_cons]
      have hg : (c :: rest).getD 0 [] = c := rfl
      rw [hg]
      have hmapfilter :
          ((List.range rest.length).map Nat.succ).filter
              (fun j => containsSub key (blobLower ((c :: rest).getD j []))) =
            ((List.range rest.length).filter
              (fun j => containsSub key (blobLower (rest.getD j [])))).map Nat.succ := by
        rw [List.filter_map]
        exact congrArg (List.map Nat.succ) (List.filter_congr (fun j _ => rfl))
      have hmapmap :
          (((List.range rest.length).filter
              (fun j => containsSub key (blobLower (rest.getD j [])))).map Nat.succ).map
              (fun j => j + n) =
            ((List.range rest.length).filter
              (fun j => containsSub key (blobLower (rest.getD j [])))).map
              (fun j => j + (n + 1)) := by
        rw [List.map_map]
        apply List.map_congr_left
        intro j _
        show j + 1 + n = j + (n + 1)
        omega
      by_cases hcon : containsSub key (blobLower c) = true
      · have hcnd : ¬(key ≠ [] ∧ containsSub key (blobLower c) = false) := by
          intro hand
          rw [hcon] at hand
          exact absurd hand.2 (by simp)
        rw [if_neg hcnd, if_pos hcon, List.map_cons, hmapfilter, hmapmap, ih (n + 1)]
        simp
      · have hfalse : containsSub key (blobLower c) = false := by
          rcases Bool.eq_false_or_eq_true (containsSub key (blobLower c)) with h | h
          · exact absurd h hcon
          · exact h
        have hknil : key ≠ [] := by
          intro hk
          subst hk
          rw [containsSub_nil_true] at hfalse
          cases hfalse
        rw [if_pos ⟨hknil, hfalse⟩, if_neg hcon, hmapfilter, hmapmap]
        exact ih (n + 1)

/-- Claim C1: recomputing the filter yields exactly the indices whose
lowered `name group` blob contains the lowered search string, in
original order; the empty search matches every index; and the
recomputation resets `selected` and `scroll_offset` to 0. -/
theorem claim1_apply_filter_spec (st : TuiState) :
    (applyFilter st).filteredIdx =
      (List.range st.configs.length).filter
        (fun j => containsSub (pyLower st.search) (blobLower (st.configs.getD j []))) ∧
    (st.search = [] → (applyFilter st).filteredIdx = List.range st.configs.length) ∧
    (applyFilter st).selected = 0 ∧
    (applyFilter st).scrollOffset = 0 := by
  have hfi : (applyFilter st).filteredIdx = filterIdxAux (pyLower st.search) 0 st.configs := rfl
  have hmain : (applyFilter st).filteredIdx =
      (List.range st.configs.length).filter
        (fun j => containsSub (pyLower st.search) (blobLower (st.configs.getD j []))) := by
    rw [hfi, filterIdxAux_spec]
    simp
  refine ⟨hmain, ?_, rfl, rfl⟩
  intro hs
  rw [hmain, hs]
  apply List.filter_eq_self.mpr
  intro j _
  exact containsSub_nil_true _

/-- Witness for C1: a concrete search over three profiles keeps exactly
the two matching indices, in order, with the selection reset. -/
theorem claim1_witness :
    (applyFilter
      { mode := Mode.list
        aiType := Kind.claude
        search := ("pro").data
        configs := [[((("name").data, JVal.s (("Prod-1").data)))],
                    [((("name").data, JVal.s (("dev").data)))],
                    [((("group").data, JVal.s (("PROmax").data)))]]
        filteredIdx := []
        selected := 7
        scrollOffset := 3
        messages := []
        confirmCfg := none
        confirmCustomKey := []
        envVars := []
        shellFile := [] }).filteredIdx = [0, 2] ∧
    (applyFilter
      { mode := Mode.list
        aiType := Kind.claude
        search := ("pro").data
        configs := [[((("name").data, JVal.s (("Prod-1").data)))],
                    [((("name").data, JVal.s (("dev").data)))],
                    [((("group").data, JVal.s (("PROmax").data)))]]
        filteredIdx := []
        selected := 7
        scrollOffset := 3
        messages := []
        confirmCfg := none
        confirmCustomKey := []
        envVars := []
        shellFile := [] }).selected = 0 := by
  refine ⟨?_, (claim1_apply_filter_spec _).2.2.1⟩
  rw [(claim1_apply_filter_spec _).1]
  decide

/-- The selection a non-empty `move` lands on, as a clamp. -/
theorem moveSel_selected (st : TuiState) (d : Int) (my : Nat)
    (h : st.filteredIdx ≠ []) :
    (moveSel st d my).selected =
      max 0 (min (st.selected + d) ((st.filteredIdx.length : Int) - 1)) := by
  unfold moveSel
  rw [if_neg h]

/-- `move` never changes the filtered index list. -/
theorem moveSel_filteredIdx (st : TuiState) (d : Int) (my : Nat) :
    (moveSel st d my).filteredIdx = st.filteredIdx := by
  unfold moveSel
  split_ifs <;> rfl

/-- Bounds of one `move`: on a non-empty filtered list the clamped
selection lands in `[0, len-1]`. -/
theorem moveSel_bounds (st : TuiState) (d : Int) (my : Nat)
    (h : st.filteredIdx ≠ []) :
    0 ≤ (moveSel st d my).selected ∧
    (moveSel st d my).selected < (st.filteredIdx.length : Int) := by
  have hlen : 0 < st.filteredIdx.length := List.length_pos.mpr h
  rw [moveSel_selected st d my h]
  constructor
  · exact le_max_left 0 _
  · have h1 : min (st.selected + d) ((st.filteredIdx.length : Int) - 1) ≤
        (st.filteredIdx.length : Int) - 1 := min_le_right _ _
    have h2 : (0 : Int) ≤ (st.filteredIdx.length : Int) - 1 := by
      omega
    have h3 : max 0 (min (st.selected + d) ((st.filteredIdx.length : Int) - 1)) ≤
        (st.filteredIdx.length : Int) - 1 := max_le h2 h1
    omega

/-- Every console operation re-establishes the selection invariant. -/
theorem applyOp_selInvariant (st : TuiState) (op : ConsoleOp) :
    selInvariant (applyOp st op) := by
  cases op with
  | move d my =>
      by_cases h : st.filteredIdx = []
      · intro hne
        exfalso
        have hid : (applyOp st (ConsoleOp.move d my)) = st := by
          show moveSel st d my = st
          unfold moveSel
          rw [if_pos h]
        rw [hid] at hne
        exact hne h
      · intro _hne
        obtain ⟨h1, h2⟩ := moveSel_bounds st d my h
        refine ⟨h1, ?_⟩
        rw [show (applyOp st (ConsoleOp.move d my)).filteredIdx =
          st.filteredIdx from moveSel_filteredIdx st d my]
        exact h2
  | refilter s cfgs =>
      intro hne
      have hsel : (applyOp st (ConsoleOp.refilter s cfgs)).selected = 0 := rfl
      rw [hsel]
      refine ⟨le_refl 0, ?_⟩
      have hpos : 0 < (applyOp st (ConsoleOp.refilter s cfgs)).filteredIdx.length :=
        List.length_pos.mpr hne
      exact_mod_cast hpos

/-- Claim C2: over any sequence of move/refilter operations the
invariant `0 ≤ selected < len(filteredIndices)` holds whenever the
filtered list is non-empty; a single move clamps into `[0, len-1]`; and
a move on an empty filtered list is a no-op. -/
theorem claim2_selection_invariant :
    (∀ (st : TuiState) (ops : List ConsoleOp),
      selInvariant st → selInvariant (ops.foldl applyOp st)) ∧
    (∀ (st : TuiState) (d : Int) (my : Nat), st.filteredIdx ≠ [] →
      0 ≤ (moveSel st d my).selected ∧
      (moveSel st d my).selected < (st.filteredIdx.length : Int)) ∧
    (∀ (st : TuiState) (d : Int) (my : Nat), st.filteredIdx = [] →
      moveSel st d my = st) := by
  refine ⟨?_, ?_, ?_⟩
  · intro st ops
    induction ops generalizing st with
    | nil => intro h; exact h
    | cons op rest ih =>
        intro _h
        rw [List.foldl_cons]
        exact ih (applyOp st op) (applyOp_selInvariant st op)
  · intro st d my h
    exact moveSel_bounds st d my h
  · intro st d my h
    unfold moveSel
    rw [if_pos h]

/-- Witness for C2: a concrete run of moves and refilters from a state
satisfying the invariant, and a concrete empty-list no-op move. -/
theorem claim2_witness :
    selInvariant (List.foldl applyOp
      { mode := Mode.list
        aiType := Kind.claude
        search := []
        configs := [[((("name").data, JVal.s (("a").data)))]]
        filteredIdx := [0]
        selected := 0
        scrollOffset := 0
        messages := []
        confirmCfg := none
        confirmCustomKey := []
        envVars := []
        shellFile := [] }
      [ConsoleOp.move 5 24, ConsoleOp.refilter [] [], ConsoleOp.move (-3) 24]) ∧
    moveSel
      { mode := Mode.list
        aiType := Kind.claude
        search := []
        configs := []
        filteredIdx := []
        selected := 0
        scrollOffset := 0
        messages := []
        confirmCfg := none
        confirmCustomKey := []
        envVars := []
        shellFile := [] } (-3) 24 =
      { mode := Mode.list
        aiType := Kind.claude
        search := []
        configs := []
        filteredIdx := []
        selected := 0
        scrollOffset := 0
        messages := []
        confirmCfg := none
        confirmCustomKey := []
        envVars := []
        shellFile := [] } := by
  constructor
  · exact claim2_selection_invariant.1 _ _ (by intro _h; exact ⟨by decide, by decide⟩)
  · exact claim2_selection_invariant.2.2 _ (-3) 24 rfl

/-- Claim C8: from the confirmation mode with a pending profile, a
decline key (`n`/`N`/Esc) returns to the list mode, clears the pending
profile, pushes the cancelled message, and leaves the process
environment, the persisted file, the profiles, the filtered indices,
the selection and the scroll offset unchanged. -/
theorem claim8_decline_frame (st : TuiState) (ch : Int)
    (hch : ch = 110 ∨ ch = 78 ∨ ch = 27)
    (_hmode : st.mode = Mode.confirm)
    (_hpend : st.confirmCfg.isSome) :
    (handleConfirmKey st ch).mode = Mode.list ∧
    (handleConfirmKey st ch).confirmCfg = none ∧
    (handleConfirmKey st ch).messages =
      pushMsg st.messages (("[取消] 未应用配置").data) ∧
    (handleConfirmKey st ch).envVars = st.envVars ∧
    (handleConfirmKey st ch).shellFile = st.shellFile ∧
    (handleConfirmKey st ch).configs = st.configs ∧
    (handleConfirmKey st ch).filteredIdx = st.filteredIdx ∧
    (handleConfirmKey st ch).selected = st.selected ∧
    (handleConfirmKey st ch).scrollOffset = st.scrollOffset := by
  have hred : handleConfirmKey st ch =
      { st with
          messages := pushMsg st.messages (("[取消] 未应用配置").data)
          confirmCfg := none
          mode := Mode.list } := by
    unfold handleConfirmKey
    rcases hch with rfl | rfl | rfl
    · rw [if_neg (by omega), if_pos (by omega)]
    · rw [if_neg (by omega), if_pos (by omega)]
    · rw [if_neg (by omega), if_pos (by omega)]
  rw [hred]
  exact ⟨rfl, rfl, rfl, rfl, rfl, rfl, rfl, rfl, rfl⟩

/-- Witness for C8: declining with Esc from a concrete confirmation
state leaves the environment untouched and returns to the list. -/
theorem claim8_witness :
    (handleConfirmKey
      ⟨Mode.confirm, Kind.claude, [], [], [], 0, 0, [],
        some [((("name").data, JVal.s (("X").data)))], [],
        [((("ANTHROPIC_AUTH_TOKEN").data, ("k1").data))], ("x\n").data⟩ 27).mode =
      Mode.list ∧
    (handleConfirmKey
      ⟨Mode.confirm, Kind.claude, [], [], [], 0, 0, [],
        some [((("name").data, JVal.s (("X").data)))], [],
        [((("ANTHROPIC_AUTH_TOKEN").data, ("k1").data))], ("x\n").data⟩ 27).envVars =
      [((("ANTHROPIC_AUTH_TOKEN").data, ("k1").data))] := by
  have h := claim8_decline_frame
    ⟨Mode.confirm, Kind.claude, [], [], [], 0, 0, [],
      some [((("name").data, JVal.s (("X").data)))], [],
      [((("ANTHROPIC_AUTH_TOKEN").data, ("k1").data))], ("x\n").data⟩ 27
    (Or.inr (Or.inr rfl)) rfl rfl
  exact ⟨h.1, h.2.2.2.1⟩

/-- An empty service record matches neither channel family: the type
labels are absent and no keyword occurs in the blank name text. -/
theorem isMatchingChannel_empty (aiType : List Char) :
    isMatchingChannel [] aiType = false := by
  have h1 : isMatchingChannel [] aiType =
      (if aiType = ("claude").data then
        claudeKeywords.any (fun kw => containsSub kw [' '])
      else codexKeywords.any (fun kw => containsSub kw [' '])) := rfl
  rw [h1]
  by_cases ha : aiType = ("claude").data
  · rw [if_pos ha]
    decide
  · rw [if_neg ha]
    decide

/-- A malformed record — wrong shape (not a dict) or an empty dict with
every required field missing — is skipped by the services fold. -/
theorem svcStep_malformed (aiType : List Char) (gen : JVal)
    (st : (List (List Char × List JVal)) × (List (Int × (JVal × List JVal))))
    (m : JVal) (hm : isObjV m = false ∨ m = JVal.obj []) :
    svcStep aiType gen st m = st := by
  rcases hm with h | h
  · cases m with
    | obj f => simp [isObjV] at h
    | null => rfl
    | b v => rfl
    | i v => rfl
    | q v => rfl
    | s v => rfl
    | arr l => rfl
  · subst h
    simp [svcStep, isMatchingChannel_empty]

/-- Claim C7: normalization is per-record robust — a document
containing one malformed record (wrong shape, or a record missing all
required fields) normalizes to exactly the snapshot of the same
document without that record, so every other well-formed record still
appears. -/
theorem claim7_normalize_skips_malformed (gen : JVal) (aiType : List Char)
    (L₁ L₂ : List JVal) (m : JVal)
    (hm : isObjV m = false ∨ m = JVal.obj []) :
    normalizeHealth (mkHealthDoc gen (L₁ ++ m :: L₂)) aiType =
      normalizeHealth (mkHealthDoc gen (L₁ ++ L₂)) aiType := by
  have hnorm : ∀ svcs : List JVal,
      normalizeHealth (mkHealthDoc gen svcs) aiType =
        normalizeFromFold (svcs.foldl (svcStep aiType gen) (([], []))) := fun _ => rfl
  rw [hnorm, hnorm]
  have hfold : (L₁ ++ m :: L₂).foldl (svcStep aiType gen) (([], [])) =
      (L₁ ++ L₂).foldl (svcStep aiType gen) (([], [])) := by
    rw [List.foldl_append, List.foldl_append, List.foldl_cons,
      svcStep_malformed aiType gen _ m hm]
  rw [hfold]

/-- Witness for C7: a wrong-shaped record (a bare number) between two
well-formed records changes nothing in the snapshot. -/
theorem claim7_witness :
    normalizeHealth
      (mkHealthDoc .null
        [JVal.obj [((("model_type_label").data, JVal.s (("claude_code").data))),
                   ((("channel_name").data, JVal.s (("CC-1").data))),
                   ((("provider_name").data, JVal.s (("Duck").data)))],
         JVal.i 5,
         JVal.obj [((("model_type_label").data, JVal.s (("claude_code").data))),
                   ((("channel_name").data, JVal.s (("CC-2").data))),
                   ((("provider_name").data, JVal.s (("Duck").data)))]])
      (("claude").data) =
    normalizeHealth
      (mkHealthDoc .null
        [JVal.obj [((("model_type_label").data, JVal.s (("claude_code").data))),
                   ((("channel_name").data, JVal.s (("CC-1").data))),
                   ((("provider_name").data, JVal.s (("Duck").data)))],
         JVal.obj [((("model_type_label").data, JVal.s (("claude_code").data))),
                   ((("channel_name").data, JVal.s (("CC-2").data))),
                   ((("provider_name").data, JVal.s (("Duck").data)))]])
      (("claude").data) := by
  exact claim7_normalize_skips_malformed .null (("claude").data)
    [JVal.obj [((("model_type_label").data, JVal.s (("claude_code").data))),
               ((("channel_name").data, JVal.s (("CC-1").data))),
               ((("provider_name").data, JVal.s (("Duck").data)))]]
    [JVal.obj [((("model_type_label").data, JVal.s (("claude_code").data))),
               ((("channel_name").data, JVal.s (("CC-2").data))),
               ((("provider_name").data, JVal.s (("Duck").data)))]]
    (JVal.i 5) (Or.inl rfl)

/-- One decimal digit below 10. -/
theorem natRepr_len_lt10 (n : Nat) (h : n < 10) : (natRepr n).length = 1 := by
  unfold natRepr
  rw [dif_pos h]
  rfl

/-- At most two decimal digits below 100. -/
theorem natRepr_len_lt100 (n : Nat) (h : n < 100) : (natRepr n).length ≤ 2 := by
  by_cases h10 : n < 10
  · rw [natRepr_len_lt10 n h10]
    omega
  · unfold natRepr
    rw [dif_neg h10, List.length_append]
    have hd : n / 10 < 10 := by omega
    rw [natRepr_len_lt10 _ hd]
    simp

/-- At most three decimal digits below 1000. -/
theorem natRepr_len_lt1000 (n : Nat) (h : n < 1000) : (natRepr n).length ≤ 3 := by
  by_cases h10 : n < 10
  · rw [natRepr_len_lt10 n h10]
    omega
  · unfold natRepr
    rw [dif_neg h10, List.length_append]
    have hd : n / 10 < 100 := by omega
    have := natRepr_len_lt100 _ hd
    simp only [List.length_singleton]
    omega

/-- Claim C6: the health fetch never raises (it is a total function of
the two transport outcomes); whenever both the primary and the fallback
attempt fail — non-200 response (with the usual 3-digit status code),
parse failure, network exception or missing HTTP library — it returns
the empty snapshot paired with an error message of at most 60
characters. -/
theorem claim6_fetch_soft_failure (cs rq : Transport) (aiType : List Char)
    (h1 : isOk200 cs = false) (h2 : isOk200 rq = false)
    (h3 : ∀ s p, rq = Transport.resp s p → s < 1000) :
    (fetchHealthStatus cs rq aiType).1 = [] ∧
    (fetchHealthStatus cs rq aiType).2.length ≤ 60 := by
  have hfb : fetchHealthStatus cs rq aiType = fallbackFetch rq aiType := by
    cases cs with
    | importErr => rfl
    | netExc m => rfl
    | resp s pr =>
        cases pr with
        | ok d =>
            by_cases hs : s = 200
            · subst hs
              simp [isOk200] at h1
            · simp only [fetchHealthStatus]
              rw [if_neg hs]
        | error m => rfl
  rw [hfb]
  cases rq with
  | importErr =>
      refine ⟨rfl, ?_⟩
      show ((("请安装 requests 或 cloudscraper").data).length ≤ 60)
      decide
  | netExc m =>
      refine ⟨rfl, ?_⟩
      show ((m.take 60).length ≤ 60)
      exact List.length_take_le 60 m
  | resp s pr =>
      have hslt : s < 1000 := h3 s pr rfl
      by_cases hs : s = 200
      · subst hs
        cases pr with
        | ok d => simp [isOk200] at h2
        | error m =>
            refine ⟨rfl, ?_⟩
            show ((m.take 60).length ≤ 60)
            exact List.length_take_le 60 m
      · simp only [fallbackFetch]
        rw [if_neg hs]
        refine ⟨rfl, ?_⟩
        show ((("HTTP ").data ++ natRepr s ++ (" (可能被 CF 盾拦截)").data).length ≤ 60)
        rw [List.length_append, List.length_append]
        have hlen := natRepr_len_lt1000 s hslt
        have hl1 : (("HTTP ").data).length = 5 := rfl
        have hl2 : ((" (可能被 CF 盾拦截)").data).length = 13 := rfl
        rw [hl1, hl2]
        omega

/-- Witness for C6: a network exception on the primary attempt and an
HTTP 503 on the fallback yield an empty snapshot with a short message. -/
theorem claim6_witness :
    (fetchHealthStatus (Transport.netExc (("boom").data))
      (Transport.resp 503 (Except.error (("denied").data))) (("claude").data)).1 = [] ∧
    (fetchHealthStatus (Transport.netExc (("boom").data))
      (Transport.resp 503 (Except.error (("denied").data))) (("claude").data)).2.length ≤ 60 := by
  exact claim6_fetch_soft_failure _ _ _ rfl rfl
    (by intro s p h; cases h; decide)

/-- Every poller event preserves the worker-count invariant. -/
theorem pollInv_step (st st' : PollState) (hstep : PollStep st st')
    (hinv : pollInv st) : pollInv st' := by
  cases hstep with
  | refresh =>
      unfold refreshHealth
      split_ifs with hurl halive
      · exact hinv
      · exact hinv
      · show st.liveWorkers + 1 = (if true = true ∧ true = true then 1 else 0)
        rw [if_pos ⟨rfl, rfl⟩]
        have h0 : st.liveWorkers = 0 := by
          rw [hinv, if_neg halive]
        omega
  | finish h err halive =>
      show st.liveWorkers - 1 = (if st.hasThread = true ∧ false = true then 1 else 0)
      rw [if_neg (by intro hand; exact absurd hand.2 (by simp))]
      have hle : st.liveWorkers ≤ 1 := by
        rw [hinv]
        split_ifs <;> omega
      omega
  | setUrl u => exact hinv

/-- Counterexample to claim C9 as stated: in the reachable state where
a worker is in flight and the health URL has been edited to the empty
string, `refresh_health` still pushes a skip message — the request is
dropped (no second worker, loading untouched) but the messages do
change. -/
theorem claim9_counterexample :
    ({ refreshHealth pollInit with healthUrl := ([] : List Char) }).threadAlive = true ∧
    (refreshHealth
        { refreshHealth pollInit with healthUrl := ([] : List Char) }).messages ≠
      ({ refreshHealth pollInit with healthUrl := ([] : List Char) }).messages := by
  constructor
  · rfl
  · decide

/-- Claim C9 (amended): a refresh request while a fetch worker is in
flight never starts a second worker and never touches the loading flag,
and — when the health URL is non-empty, the only case in which a fetch
could be requested at all — it is a complete no-op, messages included;
consequently no state reachable from startup ever has two live fetch
workers. -/
theorem claim9_single_worker :
    (∀ st : PollState, st.hasThread = true → st.threadAlive = true →
      st.healthUrl ≠ [] → refreshHealth st = st) ∧
    (∀ st : PollState, st.hasThread = true → st.threadAlive = true →
      (refreshHealth st).liveWorkers = st.liveWorkers ∧
      (refreshHealth st).threadAlive = st.threadAlive ∧
      (refreshHealth st).healthLoading = st.healthLoading) ∧
    (∀ st : PollState, Relation.ReflTransGen PollStep pollInit st →
      st.liveWorkers ≤ 1) := by
  have hdrop : ∀ st : PollState, st.hasThread = true → st.threadAlive = true →
      st.healthUrl ≠ [] → refreshHealth st = st := by
    intro st hh ha hurl
    unfold refreshHealth
    rw [if_neg hurl, if_pos ⟨hh, ha⟩]
  refine ⟨hdrop, ?_, ?_⟩
  · intro st hh ha
    by_cases hurl : st.healthUrl = []
    · unfold refreshHealth
      rw [if_pos hurl]
      exact ⟨rfl, rfl, rfl⟩
    · rw [hdrop st hh ha hurl]
      exact ⟨rfl, rfl, rfl⟩
  · intro st hreach
    have hinv : pollInv st := by
      induction hreach with
      | refl =>
          show pollInit.liveWorkers = _
          decide
      | tail _hab hbc ih => exact pollInv_step _ _ hbc ih
    rw [hinv]
    split_ifs <;> omega

/-- Witness for C9: a concrete in-flight state with a non-empty URL is
left exactly as it was, and the startup state has at most one worker. -/
theorem claim9_witness :
    refreshHealth ⟨("u").data, true, true, 1, true, [], [], []⟩ =
      ⟨("u").data, true, true, 1, true, [], [], []⟩ ∧
    pollInit.liveWorkers ≤ 1 := by
  constructor
  · exact claim9_single_worker.1 ⟨("u").data, true, true, 1, true, [], [], []⟩ rfl rfl
      (by decide)
  · exact claim9_single_worker.2.2 pollInit Relation.ReflTransGen.refl

end AiSwitch
